import Mathlib

/-!
Shallow embedding of the reward-wheel backend (kristianakila/restbek2).

Sources embedded:
- src/server.js           — the `/api/spin` handler: daily-limit check, cooldown
                            check, inline referrer processing, weighted prize
                            selection, spin persistence.
- src/routes/routes.js    — the router `/api/spin` (cooldown check commented
                            out in the source), `selectPrize`, lead routes.
- src/services/firebaseService.js — `saveSpin`, `saveSpinSimple`,
                            `updateSpinLead`, `updateSpinFallback`.

Conventions: timestamps are naturals (milliseconds since epoch); a calendar
day is the quotient by 86400000 (one fixed reference timezone, as both
`toDateString` comparisons in server.js use one clock).  JavaScript float
weights are modelled as rationals.  The JS idiom `x || d` on unsigned
numbers (falsy on 0 and on a missing field) is modelled by `jsOr`,
with 0 standing for "zero or absent".
-/

namespace Restbek

/-- One calendar day in milliseconds. -/
def dayMs : Nat := 86400000

/-- Calendar day of a millisecond timestamp (fixed reference timezone). -/
def dayOf (t : Nat) : Nat := t / dayMs

/-- Midnight (start of day) of the day containing `t`;
models `today.setHours(0,0,0,0)` in routes.js / firebaseService.js. -/
def startOfDay (t : Nat) : Nat := dayOf t * dayMs

/-- JS `n || d` for unsigned numeric config fields: `0` (also modelling an
absent field) falls back to the default `d`. -/
def jsOr (n d : Nat) : Nat := if n = 0 then d else n

/-- Firestore `FieldValue.arrayUnion(x)`: appends `x` unless already present. -/
def arrayUnion {α : Type} [DecidableEq α] (l : List α) (x : α) : List α :=
  if x ∈ l then l else l ++ [x]

/-! ## server.js data model -/

/-- A wheel prize as stored in `botData.wheel.prizes` (server.js).
`probability` is the float weight, modelled as a rational. -/
structure Prize where
  pid : Nat
  text : String
  value : Int
  ptype : String
  probability : Rat
  isAvailable : Bool
deriving DecidableEq, Repr

/-- A spin record as built in server.js `/api/spin` (`spinRecord`). -/
structure SpinRecord where
  spin_id : String
  date : Nat
  prize_id : Nat
  prize_type : String
  prize_value : Int
  claimed : Bool
deriving DecidableEq, Repr

/-- The per-user document as read and written by server.js `/api/spin`. -/
structure ServerUser where
  spins : List SpinRecord
  totalSpins : Nat
  totalPrizes : Nat
  lastSpin : Option Nat
  invitedUsers : List String
  referrals : Nat
  referrer_processed : Bool
  referrer_id : Option String
deriving DecidableEq, Repr

/-- `botData.limits` as consumed by server.js; a stored `0` (or an absent
field) is falsy in JS, so the handlers replace it by the default. -/
structure BotLimits where
  spinsPerDay : Nat
  cooldownSeconds : Nat
deriving DecidableEq, Repr

/-- `botData.limits?.spinsPerDay || 3` (server.js line 226). -/
def effSpinsPerDay (l : BotLimits) : Nat := jsOr l.spinsPerDay 3

/-- `botData.limits?.cooldownSeconds || 3600` (server.js line 235). -/
def effCooldownSeconds (l : BotLimits) : Nat := jsOr l.cooldownSeconds 3600

/-- `spin.date` and `now` fall in the same calendar day
(`spinDate === today` via `toDateString`, server.js lines 220-224). -/
def sameDay (a b : Nat) : Bool := dayOf a == dayOf b

/-- server.js `spinsToday`: spins whose `date` is in the current day. -/
def spinsToday (spins : List SpinRecord) (now : Nat) : Nat :=
  (spins.filter (fun s => sameDay s.date now)).length

/-- Number of recorded spins whose `date` lies in calendar day `d`. -/
def dayCount (spins : List SpinRecord) (d : Nat) : Nat :=
  (spins.filter (fun s => dayOf s.date == d)).length

/-! ## Prize selection (server.js lines 268-284) -/

/-- The selection walk of server.js: `if (random < prize.probability)
{selected = prize; break} else random -= prize.probability`.  Returns
`none` when the walk exhausts the list without breaking. -/
def selectLoop : List Prize → Rat → Option Prize
  | [], _ => none
  | p :: rest, r =>
    if r < p.probability then some p else selectLoop rest (r - p.probability)

/-- server.js prize selection over the available prizes: the walk, with
`selectedPrize` pre-initialised to `availablePrizes[0]`, so an unconsumed
draw falls back to the FIRST prize of the table.  `none` only on an empty
list (server.js rejects that case earlier). -/
def selectPrizeServer (avail : List Prize) (r : Rat) : Option Prize :=
  match avail with
  | [] => none
  | p0 :: _ => some ((selectLoop avail r).getD p0)

/-- `availablePrizes = prizes.filter(p => p.isAvailable !== false)`. -/
def availableOf (prizes : List Prize) : List Prize :=
  prizes.filter (fun p => p.isAvailable)

/-- Result of the prize-selection step of server.js `/api/spin`. -/
inductive PrizeStepResult where
  | noPrizes
  | selected (p : Prize)
deriving DecidableEq, Repr

/-- server.js lines 269-284: reject with the no-prizes error exactly when
the filtered available list is empty, otherwise run the selection walk. -/
def prizeStep (prizes : List Prize) (r : Rat) : PrizeStepResult :=
  match availableOf prizes with
  | [] => .noPrizes
  | p0 :: rest => .selected ((selectLoop (p0 :: rest) r).getD p0)

/-- Sum of the weights, `availablePrizes.reduce((sum,p) => sum + p.probability, 0)`. -/
def totalWeight (l : List Prize) : Rat := (l.map (fun p => p.probability)).sum

/-- Each prize of `l` paired with the running cumulative weight (starting
from `s`) including its own weight. -/
def withCumFrom (s : Rat) : List Prize → List (Prize × Rat)
  | [] => []
  | p :: rest => (p, s + p.probability) :: withCumFrom (s + p.probability) rest

/-- The specification's reading of the walk: the first prize in table order
whose running cumulative weight strictly exceeds the draw `r`. -/
def firstCumExceeding (l : List Prize) (r : Rat) : Option Prize :=
  ((withCumFrom 0 l).find? (fun pc => decide (r < pc.2))).map Prod.fst

/-! ## Referrer processing (server.js lines 245-266) -/

/-- The inline referrer block of server.js `/api/spin`: when a referrer id
is present and differs from the user, the referrer document exists, and the
referred user's `referrer_processed` flag is still false, add the user to
the referrer's `invitedUsers` (arrayUnion), increment the referrer's
`referrals`, and mark the referred user processed. -/
def processReferrer (userId rid : String) (u : ServerUser)
    (refUser : Option ServerUser) : ServerUser × Option ServerUser :=
  if rid = userId then (u, refUser)
  else
    match refUser with
    | none => (u, refUser)
    | some rd =>
      if u.referrer_processed then (u, some rd)
      else
        ({u with referrer_processed := true, referrer_id := some rid},
         some {rd with invitedUsers := arrayUnion rd.invitedUsers userId,
                       referrals := rd.referrals + 1})

/-! ## The server.js spin handler -/

/-- Outcome of one server.js `/api/spin` request. -/
inductive SpinOutcome where
  | dailyLimit (sToday : Nat)
  | cooldown (remaining : Nat)
  | noPrizes
  | ok (record : SpinRecord)
deriving DecidableEq, Repr

/-- One spin attempt: the request time, the weighted draw
(`Math.random() * totalProbability`), the fresh spin id, and the optional
`referrer_id` of the request body. -/
structure Attempt where
  now : Nat
  draw : Rat
  newId : String
  refId : Option String
deriving DecidableEq, Repr

/-- The server.js `/api/spin` handler (lines 196-359) on existing bot and
user documents, sequentially: daily-limit check, cooldown check, referrer
processing, availability check, selection walk, then the atomic update
appending the spin record (arrayUnion), incrementing `totalSpins`, setting
`lastSpin := now`, and incrementing `totalPrizes` for a non-`none` prize.
Returns the outcome, the updated user, and the updated referrer document. -/
def serverSpin (limits : BotLimits) (prizes : List Prize) (userId : String)
    (u : ServerUser) (refUser : Option ServerUser) (a : Attempt) :
    SpinOutcome × ServerUser × Option ServerUser :=
  let sToday := spinsToday u.spins a.now
  if effSpinsPerDay limits ≤ sToday then (.dailyLimit sToday, u, refUser)
  else
    let cd := match u.lastSpin with
      | some last =>
        if a.now < last + effCooldownSeconds limits * 1000 then
          some ((last + effCooldownSeconds limits * 1000 - a.now + 999) / 1000)
        else none
      | none => none
    match cd with
    | some remaining => (.cooldown remaining, u, refUser)
    | none =>
      let ur :=
        match a.refId with
        | some rid => processReferrer userId rid u refUser
        | none => (u, refUser)
      match prizeStep prizes a.draw with
      | .noPrizes => (.noPrizes, ur.1, ur.2)
      | .selected sel =>
        let record : SpinRecord :=
          { spin_id := a.newId, date := a.now, prize_id := sel.pid,
            prize_type := sel.ptype, prize_value := sel.value, claimed := false }
        let u2 := {ur.1 with spins := arrayUnion ur.1.spins record,
                             totalSpins := ur.1.totalSpins + 1,
                             lastSpin := some a.now}
        let u3 := if sel.ptype ≠ "none"
                  then {u2 with totalPrizes := u2.totalPrizes + 1} else u2
        (.ok record, u3, ur.2)

/-- The referred user's document together with the referrer's document. -/
structure ServerState where
  user : ServerUser
  referrer : Option ServerUser
deriving DecidableEq, Repr

/-- State transition of one server.js spin request. -/
def spinStep (limits : BotLimits) (prizes : List Prize) (userId : String)
    (st : ServerState) (a : Attempt) : ServerState :=
  let res := serverSpin limits prizes userId st.user st.referrer a
  {user := res.2.1, referrer := res.2.2}

/-- A sequence of sequential spin requests against the same user. -/
def runSpins (limits : BotLimits) (prizes : List Prize) (userId : String)
    (st : ServerState) (attempts : List Attempt) : ServerState :=
  attempts.foldl (spinStep limits prizes userId) st

/-! ## firebaseService.js data model -/

/-- `lead_data` as written by `updateSpinLead`. -/
structure LeadData where
  name : String
  phone : String
  submitted_at : Nat
deriving DecidableEq, Repr

/-- A spin object as built by `saveSpin` in firebaseService.js, together
with the lead sub-state fields later added by `updateSpinLead` and
`updateSpinFallback` (absent JS fields modelled as `false` / `none`). -/
structure Spin where
  spin_id : String
  prize : String
  prize_type : String
  prize_value : Int
  timestamp : Nat
  claimed : Bool
  lead_submitted : Bool
  lead_fallback : Bool
  lead_data : Option LeadData
  fallback_time : Option Nat
  fallback_reason : Option String
deriving DecidableEq, Repr

/-- The per-user document as read and written by firebaseService.js and
routes/routes.js (`attempts_left` is an `Int`: the claims are about its
sign). `last_reset_day` models the ISO date string as a day number. -/
structure SvcUser where
  spins : List Spin
  total_spins : Nat
  total_prizes : Nat
  attempts_left : Int
  last_spin : Option Nat
  last_reset_day : Nat
  spins_today : Nat
  referrals : Nat
  invited_users : List String
deriving DecidableEq, Repr

/-- The spin object `saveSpin` appends (firebaseService.js lines 316-327). -/
def mkSpin (spinId prize ptype : String) (pval : Int) (now : Nat) : Spin :=
  { spin_id := spinId, prize := prize, prize_type := ptype,
    prize_value := pval, timestamp := now, claimed := false,
    lead_submitted := false, lead_fallback := false,
    lead_data := none, fallback_time := none, fallback_reason := none }

/-- The existing-user branch of `saveSpin` (firebaseService.js lines
362-419): reset `attempts_left` to 3 on a new day, decrement it clamped at
0, recount today's spins (`spinDate >= todayStart`), then update the
document: append the spin, set `last_spin`, increment `total_spins`. -/
def saveSpinUpdate (u : SvcUser) (now : Nat) (spinId prize ptype : String)
    (pval : Int) : SvcUser :=
  let spin := mkSpin spinId prize ptype pval now
  let today := dayOf now
  let attemptsLeft : Int := if u.last_reset_day ≠ today then 3 else u.attempts_left
  let newAttemptsLeft : Int := max 0 (attemptsLeft - 1)
  let sToday := (u.spins.filter (fun s => startOfDay now ≤ s.timestamp)).length
  {u with spins := u.spins ++ [spin],
          last_spin := some now,
          total_spins := u.total_spins + 1,
          attempts_left := newAttemptsLeft,
          spins_today := sToday + 1,
          last_reset_day := today}

/-- The existing-user branch of `saveSpinSimple` (firebaseService.js lines
453-465): `attempts_left := Math.max(0, (userData.attempts_left || 3) - 1)`;
note `||` treats a stored 0 as falsy and replaces it by 3. -/
def saveSpinSimpleUpdate (u : SvcUser) (now : Nat) (spinId prize : String) :
    SvcUser :=
  let spin := mkSpin spinId prize "points" 0 now
  let attemptsLeft : Int :=
    max 0 ((if u.attempts_left = 0 then 3 else u.attempts_left) - 1)
  {u with spins := u.spins ++ [spin],
          last_spin := some now,
          total_spins := u.total_spins + 1,
          attempts_left := attemptsLeft}

/-! ## Lead capture (firebaseService.js lines 523-621) -/

/-- The map body of `updateSpinLead`: on the matching spin id it
unconditionally sets `lead_submitted`, overwrites `lead_data`, and marks
the spin claimed — with no check of the current lead state. -/
def applyLead (spinId : String) (ld : LeadData) (s : Spin) : Spin :=
  if s.spin_id = spinId then
    {s with lead_submitted := true, lead_data := some ld, claimed := true}
  else s

/-- `updateSpinLead` (firebaseService.js lines 523-571): rewrite the spins
through `applyLead` and increment `total_prizes` — on every call,
whether or not any spin matched or was already terminal. -/
def updateSpinLead (spinId : String) (ld : LeadData) (u : SvcUser) : SvcUser :=
  {u with spins := u.spins.map (applyLead spinId ld),
          total_prizes := u.total_prizes + 1}

/-- The map body of `updateSpinFallback`: only a matching spin whose
`lead_submitted` is still false is marked as fallen back. -/
def applyFallback (spinId : String) (t : Nat) (s : Spin) : Spin :=
  if s.spin_id = spinId ∧ s.lead_submitted = false then
    {s with lead_fallback := true, fallback_time := some t,
            fallback_reason := some "timeout", claimed := true}
  else s

/-- `updateSpinFallback` (firebaseService.js lines 576-621): rewrite the
spins through `applyFallback` and increment `total_prizes` on every call. -/
def updateSpinFallback (spinId : String) (t : Nat) (u : SvcUser) : SvcUser :=
  {u with spins := u.spins.map (applyFallback spinId t),
          total_prizes := u.total_prizes + 1}

/-- The `/api/submit-lead` route (routes.js lines 486-534) on an existing
user: reject when both contact fields are empty, otherwise save the lead
and update the spin; the response is a success in every non-rejected case. -/
def submitLeadRoute (u : SvcUser) (spinId name phone : String) (now : Nat) :
    Bool × SvcUser :=
  if name = "" ∧ phone = "" then (false, u)
  else (true, updateSpinLead spinId ⟨name, phone, now⟩ u)

/-! ## routes.js /api/spin -/

/-- A configured wheel prize as consumed by routes.js `selectPrize`. -/
structure RPrize where
  pid : Nat
  text : String
  value : Int
  ptype : String
  probability : Rat
deriving DecidableEq, Repr

/-- `prize.probability || 0.1` (routes.js lines 639-651): a zero (or
absent) weight is falsy and defaults to 0.1. -/
def rWeight (p : RPrize) : Rat := if p.probability = 0 then (1 : Rat)/10 else p.probability

/-- The walk of routes.js `selectPrize` (lines 642-652). -/
def selectPrizeLoop : List RPrize → Rat → Option RPrize
  | [], _ => none
  | p :: rest, r =>
    if r < rWeight p then some p else selectPrizeLoop rest (r - rWeight p)

/-- The default prize table of routes.js `selectPrize` (lines 629-636). -/
def defaultPrizes : List RPrize :=
  [⟨1, "10 баллов", 10, "points", (3:Rat)/10⟩,
   ⟨2, "20 баллов", 20, "points", (1:Rat)/4⟩,
   ⟨3, "30 баллов", 30, "points", (1:Rat)/5⟩,
   ⟨4, "50 баллов", 50, "points", (3:Rat)/20⟩,
   ⟨5, "100 баллов", 100, "points", (2:Rat)/25⟩,
   ⟨6, "Главный приз", 500, "grand_prize", (1:Rat)/50⟩]

/-- routes.js `selectPrize` (lines 628-661): walk the configured prizes
(falling back to the default table when the config has none); when the walk
leaves the draw unconsumed, return the FIRST prize (`prizes[0]`).
`none` models the crash on a configured empty prize array. -/
def selectPrizeRoutes (cfgPrizes : Option (List RPrize)) (r : Rat) :
    Option RPrize :=
  let prizes := cfgPrizes.getD defaultPrizes
  match prizes with
  | [] => none
  | p0 :: _ => some ((selectPrizeLoop prizes r).getD p0)

/-- Outcome of a routes.js `/api/spin` request. -/
inductive RoutesOutcome where
  | dailyLimit (maxPerDay sToday : Nat)
  | noAttempts (left : Int)
  | success (spinId : String) (prize : String)
deriving DecidableEq, Repr

/-- The routes.js `/api/spin` handler (lines 228-453) on an existing user
with Firebase initialised: count today's spins (`spinDate >= today`
midnight), check the daily limit (`spinsPerDay || 3`), check
`attempts_left <= 0`; the cooldown block is commented out in the source,
so NO cooldown check happens; select a prize and persist via `saveSpin`.
`storeOk = false` models a Firestore failure inside `saveSpin`: its catch
swallows the error and returns a fresh spin id with nothing persisted, and
the route still answers with a success response. -/
def routesSpin (storeOk : Bool) (spinsPerDayCfg : Nat)
    (cfgPrizes : Option (List RPrize)) (u : SvcUser) (now : Nat) (r : Rat)
    (fresh catchId : String) : Option (RoutesOutcome × SvcUser) :=
  let maxSpinsPerDay := jsOr spinsPerDayCfg 3
  let sToday := (u.spins.filter (fun s => startOfDay now ≤ s.timestamp)).length
  if maxSpinsPerDay ≤ sToday then some (.dailyLimit maxSpinsPerDay sToday, u)
  else if u.attempts_left ≤ 0 then some (.noAttempts u.attempts_left, u)
  else
    match selectPrizeRoutes cfgPrizes r with
    | none => none
    | some p =>
      if storeOk then
        some (.success fresh p.text,
              saveSpinUpdate u now fresh p.text p.ptype p.value)
      else
        some (.success catchId p.text, u)

/-- The fabricated response of the routes.js `/api/spin` catch block
(lines 412-444). -/
structure FallbackResponse where
  success : Bool
  spin_id : String
  is_fallback : Bool
deriving DecidableEq, Repr

/-- routes.js lines 412-444: when an error escaping the handler mentions
Firebase, the catch block answers with a fabricated success response
(`success: true`, a fresh `fallback_spin_...` id, `is_fallback: true`);
only a non-Firebase error is surfaced as a 500 (`none`). -/
def routesSpinCatch (isFirebaseErr : Bool) (fallbackId : String) :
    Option FallbackResponse :=
  if isFirebaseErr then
    some {success := true, spin_id := fallbackId, is_fallback := true}
  else none

/-! ## Operations over a user document (for the totalSpins invariant) -/

/-- The operations of firebaseService.js that touch a user's `spins` or
`total_spins`. -/
inductive UserOp where
  | save (now : Nat) (spinId prize ptype : String) (pval : Int)
  | simpleSave (now : Nat) (spinId prize : String)
  | lead (spinId : String) (ld : LeadData)
  | fallback (spinId : String) (t : Nat)
deriving DecidableEq, Repr

/-- Apply one firebaseService.js operation to a user document. -/
def applyOp (u : SvcUser) : UserOp → SvcUser
  | .save now spinId prize ptype pval => saveSpinUpdate u now spinId prize ptype pval
  | .simpleSave now spinId prize => saveSpinSimpleUpdate u now spinId prize
  | .lead spinId ld => updateSpinLead spinId ld u
  | .fallback spinId t => updateSpinFallback spinId t u

/-- The stored-counter invariant of the user document. -/
def spinsInv (u : SvcUser) : Prop := u.total_spins = u.spins.length

/-! ## Lemmas about the selection walk -/

/-- The walk on a shifted draw finds the first prize whose cumulative
weight (accumulated from `s`) exceeds the original draw `r`. -/
theorem selectLoop_eq_find (l : List Prize) (s r : Rat) :
    selectLoop l (r - s) =
      ((withCumFrom s l).find? (fun pc => decide (r < pc.2))).map Prod.fst := by
  induction l generalizing s with
  | nil => simp [selectLoop, withCumFrom]
  | cons p rest ih =>
    by_cases h : r - s < p.probability
    · have h2 : r < s + p.probability := by linarith
      simp [selectLoop, withCumFrom, h, h2]
    · have h2 : ¬ r < s + p.probability := by intro hc; exact h (by linarith)
      have hr : r - s - p.probability = r - (s + p.probability) := by ring
      simp only [selectLoop, withCumFrom, if_neg h]
      rw [hr, ih (s + p.probability)]
      simp [h2]

/-- A draw in `[0, totalWeight)` is always consumed by the walk. -/
theorem selectLoop_isSome (l : List Prize) (r : Rat) (h0 : 0 ≤ r)
    (h : r < totalWeight l) : (selectLoop l r).isSome := by
  induction l generalizing r with
  | nil =>
    exfalso
    simp [totalWeight] at h
    linarith
  | cons p rest ih =>
    by_cases hlt : r < p.probability
    · simp [selectLoop, hlt]
    · have h0' : 0 ≤ r - p.probability := by
        have := le_of_not_lt hlt; linarith
      have h' : r - p.probability < totalWeight rest := by
        simp only [totalWeight, List.map_cons, List.sum_cons] at h
        simp only [totalWeight]
        linarith
      simp only [selectLoop, if_neg hlt]
      exact ih _ h0' h'

/-- With non-negative weights, a draw at or past the total weight is never
consumed: the walk returns `none` and the fallback decides the result. -/
theorem selectLoop_eq_none (l : List Prize) (r : Rat)
    (hw : ∀ p ∈ l, 0 ≤ p.probability) (h : totalWeight l ≤ r) :
    selectLoop l r = none := by
  induction l generalizing r with
  | nil => simp [selectLoop]
  | cons p rest ih =>
    have hrest : ∀ q ∈ rest, 0 ≤ q.probability := fun q hq => hw q (by simp [hq])
    have hsum : 0 ≤ totalWeight rest := by
      apply List.sum_nonneg
      intro x hx
      simp only [List.mem_map] at hx
      obtain ⟨q, hq, rfl⟩ := hx
      exact hrest q hq
    have htot : p.probability + totalWeight rest ≤ r := by
      simpa [totalWeight] using h
    have hnlt : ¬ r < p.probability := by intro hc; linarith
    simp only [selectLoop, if_neg hnlt]
    exact ih _ hrest (by linarith)

/-- Two concrete available prizes with weight 1 each. -/
def przA : Prize := ⟨1, "A", 10, "points", 1, true⟩

/-- Second concrete prize, the last of the two-element table. -/
def przB : Prize := ⟨2, "B", 20, "points", 1, true⟩

/-- A concrete available prize with weight 0. -/
def przZero : Prize := ⟨7, "Z", 5, "points", 0, true⟩

/-- Claim C3, counterexample: on the table `[przA, przB]` with total weight
2, the unconsumed draw `r = 2` makes server.js return the FIRST prize
`przA` (the pre-initialised `selectedPrize`), not the last prize `przB` as
the claim states. -/
theorem selectPrize_fallback_first_not_last :
    selectPrizeServer [przA, przB] 2 = some przA ∧
      selectPrizeServer [przA, przB] 2 ≠ some przB := by
  have h : selectPrizeServer [przA, przB] 2 = some przA := by
    norm_num [selectPrizeServer, selectLoop, przA, przB]
  refine ⟨h, ?_⟩
  rw [h]
  simp [przA, przB]

/-- Claim C3 (amended): for a non-empty available table with non-negative
weights, a draw in `[0, totalWeight)` selects the first prize in table
order whose cumulative weight exceeds the draw; a draw left unconsumed
(at or past the total weight) falls back to the FIRST prize in table
order — not the last — and the selection is never undefined. -/
theorem selectPrize_first_cum_exceeding (p0 : Prize) (rest : List Prize)
    (r : Rat) (hw : ∀ p ∈ p0 :: rest, 0 ≤ p.probability) :
    (0 ≤ r → r < totalWeight (p0 :: rest) →
      selectPrizeServer (p0 :: rest) r = firstCumExceeding (p0 :: rest) r ∧
      (firstCumExceeding (p0 :: rest) r).isSome) ∧
    (totalWeight (p0 :: rest) ≤ r →
      selectPrizeServer (p0 :: rest) r = some p0) := by
  have hkey : selectLoop (p0 :: rest) r = firstCumExceeding (p0 :: rest) r := by
    have := selectLoop_eq_find (p0 :: rest) 0 r
    simpa [firstCumExceeding] using this
  constructor
  · intro h0 hlt
    have hs : (selectLoop (p0 :: rest) r).isSome := selectLoop_isSome _ r h0 hlt
    obtain ⟨q, hq⟩ := Option.isSome_iff_exists.mp hs
    constructor
    · simp [selectPrizeServer, hq, ← hkey]
    · rw [← hkey, hq]; rfl
  · intro hge
    have hn : selectLoop (p0 :: rest) r = none := selectLoop_eq_none _ r hw hge
    simp [selectPrizeServer, hn]

/-- Claim C3, witness: both clauses of the amended theorem evaluated on the
concrete two-prize table. -/
theorem selectPrize_first_cum_exceeding_witness :
    (selectPrizeServer [przA, przB] 0 = firstCumExceeding [przA, przB] 0 ∧
      (firstCumExceeding [przA, przB] 0).isSome) ∧
    selectPrizeServer [przA, przB] 2 = some przA := by
  have hw : ∀ p ∈ [przA, przB], 0 ≤ p.probability := by
    intro p hp
    simp only [List.mem_cons, List.mem_singleton, List.not_mem_nil, or_false] at hp
    rcases hp with h | h <;> subst h <;> norm_num [przA, przB]
  refine ⟨(selectPrize_first_cum_exceeding przA [przB] 0 hw).1 le_rfl ?_,
          (selectPrize_first_cum_exceeding przA [przB] 2 hw).2 ?_⟩
  · norm_num [totalWeight, przA, przB]
  · norm_num [totalWeight, przA, przB]

/-- Claim C4, counterexample: a one-prize table whose only available prize
has weight 0 has total weight `≤ 0`, yet the spin does not fail with the
no-prizes error — the selection step succeeds and returns that prize
(the draw is `Math.random() * 0 = 0`). -/
theorem zero_weight_table_selects_prize :
    totalWeight (availableOf [przZero]) ≤ 0 ∧
      prizeStep [przZero] 0 = .selected przZero := by
  constructor
  · norm_num [totalWeight, availableOf, przZero]
  · norm_num [prizeStep, availableOf, selectLoop, przZero]

/-- The walk never consumes a zero draw when every weight is zero. -/
theorem selectLoop_zero_weights (l : List Prize)
    (hw : ∀ p ∈ l, p.probability = 0) : selectLoop l 0 = none := by
  induction l with
  | nil => simp [selectLoop]
  | cons p rest ih =>
    have hp : p.probability = 0 := hw p (by simp)
    have hnlt : ¬ (0 : Rat) < p.probability := by rw [hp]; exact lt_irrefl 0
    simp only [selectLoop, if_neg hnlt, hp, sub_zero]
    exact ih (fun q hq => hw q (by simp [hq]))

/-- Claim C4 (amended): the spin fails with `NoPrizesAvailable` exactly
when the filtered available-prize list is empty; a NON-empty available
table of total weight `≤ 0` (all weights zero, hence draw 0) does not
fail — it selects the first available prize. -/
theorem noPrizes_iff_empty_available (prizes : List Prize) (r : Rat) :
    (prizeStep prizes r = .noPrizes ↔ availableOf prizes = []) ∧
    (∀ p0 rest, availableOf prizes = p0 :: rest →
      (∀ p ∈ availableOf prizes, p.probability = 0) →
      prizeStep prizes 0 = .selected p0) := by
  constructor
  · cases h : availableOf prizes with
    | nil => simp [prizeStep, h]
    | cons p0 rest => simp [prizeStep, h]
  · intro p0 rest hA hw
    rw [hA] at hw
    have hn : selectLoop (p0 :: rest) 0 = none := selectLoop_zero_weights _ hw
    simp [prizeStep, hA, hn]

/-- Claim C4, witness: both clauses of the amended theorem on concrete
tables (an all-unavailable table, and the zero-weight available table). -/
theorem noPrizes_iff_empty_available_witness :
    prizeStep [{przZero with isAvailable := false}] 0 = .noPrizes ∧
      prizeStep [przZero] 0 = .selected przZero := by
  constructor
  · exact (noPrizes_iff_empty_available [{przZero with isAvailable := false}] 0).1.mpr
      (by norm_num [availableOf, przZero])
  · exact (noPrizes_iff_empty_available [przZero] 0).2 przZero []
      (by norm_num [availableOf, przZero])
      (by intro p hp; norm_num [availableOf, przZero] at hp; simp [hp, przZero])

/-! ## Concrete fixtures -/

/-- A pending spin (no lead state yet) used by the concrete scenarios. -/
def spinS1 : Spin := mkSpin "s1" "prize" "points" 10 0

/-- A user holding the single pending spin `spinS1`. -/
def userS1 : SvcUser :=
  { spins := [spinS1], total_spins := 1, total_prizes := 0,
    attempts_left := 2, last_spin := some 0, last_reset_day := 0,
    spins_today := 1, referrals := 0, invited_users := [] }

/-- Concrete contact data for the lead scenarios. -/
def ldX : LeadData := ⟨"Ann", "123", 50⟩

/-- Claim C6, counterexample: starting from the pending spin `s1`, the call
sequence `fallbackLead; submitLead` ends with BOTH `lead_fallback` and
`lead_submitted` set on the record — `updateSpinLead` overwrites the
already-terminal FallenBack state instead of no-opping, so the first
terminal call did not win and the record carries two terminal states. -/
theorem lead_overwrites_fallback :
    (updateSpinLead "s1" ldX (updateSpinFallback "s1" 5 userS1)).spins =
      [{spinS1 with lead_submitted := true, lead_fallback := true,
                    lead_data := some ldX, fallback_time := some 5,
                    fallback_reason := some "timeout", claimed := true}] := by
  decide

/-- Claim C6 (amended): `updateSpinFallback` does no-op on a spin whose
`lead_submitted` is already set (Submitted-then-fallback is protected), but
`updateSpinLead` unconditionally marks the matching spin Submitted and
overwrites its `lead_data`, leaving any `lead_fallback` flag in place — so
a FallenBack spin can also become Submitted and hold both terminal
states. -/
theorem lead_state_exclusivity_amended (s : Spin) (spinId : String)
    (ld : LeadData) (t : Nat) :
    (s.lead_submitted = true → applyFallback spinId t s = s) ∧
    (s.spin_id = spinId →
      (applyLead spinId ld s).lead_submitted = true ∧
      (applyLead spinId ld s).lead_fallback = s.lead_fallback ∧
      (applyLead spinId ld s).lead_data = some ld) := by
  constructor
  · intro h
    simp [applyFallback, h]
  · intro h
    simp [applyLead, h]

/-- Claim C6, witness: the amended theorem evaluated on a concrete
Submitted spin (fallback no-ops) and on the concrete pending spin
(submitLead sets the Submitted state). -/
theorem lead_state_exclusivity_amended_witness :
    applyFallback "s1" 5 {spinS1 with lead_submitted := true} =
      {spinS1 with lead_submitted := true} ∧
    (applyLead "s1" ldX spinS1).lead_submitted = true :=
  ⟨(lead_state_exclusivity_amended {spinS1 with lead_submitted := true} "s1" ldX 5).1 rfl,
   ((lead_state_exclusivity_amended spinS1 "s1" ldX 5).2 rfl).1⟩

/-- Claim C7, counterexample: submitting the same lead twice for spin `s1`
does NOT leave the state unchanged — `total_prizes` goes 0, 1, 2 because
`updateSpinLead` increments it on every call, so the state after the
second call differs from the state after the first. -/
theorem double_submit_changes_state :
    (updateSpinLead "s1" ldX (updateSpinLead "s1" ldX userS1)).total_prizes = 2 ∧
    (updateSpinLead "s1" ldX userS1).total_prizes = 1 ∧
    updateSpinLead "s1" ldX (updateSpinLead "s1" ldX userS1) ≠
      updateSpinLead "s1" ldX userS1 := by
  refine ⟨rfl, rfl, ?_⟩
  intro h
  have h2 := congrArg SvcUser.total_prizes h
  simp [updateSpinLead] at h2

/-- Claim C7 (amended): re-submitting a lead returns a success response,
but it mutates state: every `submitLead` call (terminal or not, matching a
spin or not) increments `total_prizes` by exactly one and rewrites the
matched spin's `lead_data`. -/
theorem submit_lead_increments_total_prizes (u : SvcUser)
    (spinId name phone : String) (now : Nat)
    (h : ¬ (name = "" ∧ phone = "")) :
    (submitLeadRoute u spinId name phone now).1 = true ∧
    (submitLeadRoute u spinId name phone now).2.total_prizes =
      u.total_prizes + 1 := by
  have e : submitLeadRoute u spinId name phone now =
      (true, updateSpinLead spinId ⟨name, phone, now⟩ u) := by
    simp [submitLeadRoute, h]
  rw [e]
  exact ⟨rfl, rfl⟩

/-- Claim C7, witness: the amended theorem on the concrete user and
non-empty contact data. -/
theorem submit_lead_increments_total_prizes_witness :
    (submitLeadRoute userS1 "s1" "Ann" "123" 50).1 = true ∧
    (submitLeadRoute userS1 "s1" "Ann" "123" 50).2.total_prizes =
      userS1.total_prizes + 1 :=
  submit_lead_increments_total_prizes userS1 "s1" "Ann" "123" 50 (by decide)

/-- The concrete user whose `attempts_left` is exactly 0. -/
def userZeroAttempts : SvcUser := {userS1 with attempts_left := 0}

/-- Claim C10, counterexample: `saveSpinSimple` does NOT compute
`max(0, attempts_left - 1)`: on a user with `attempts_left = 0` the JS
expression `(userData.attempts_left || 3) - 1` treats the stored 0 as
falsy, so the stored result is 2 while the claimed formula gives 0. -/
theorem saveSpinSimple_defaults_zero_attempts :
    userZeroAttempts.attempts_left = 0 ∧
    (saveSpinSimpleUpdate userZeroAttempts 1000 "s2" "p").attempts_left = 2 ∧
    max 0 (userZeroAttempts.attempts_left - 1) = 0 := by
  refine ⟨rfl, ?_, by decide⟩
  decide

/-- Claim C10 (amended): `saveSpin` stores
`max(0, a - 1)` for `a` the attempts after the daily reset, and
`saveSpinSimple` stores `max(0, a' - 1)` for `a'` the attempts with 0
defaulted to 3 — so for EVERY user state (whatever the sign of
`attempts_left`) the stored `attempts_left` after either spin-saving path
is non-negative. -/
theorem attempts_left_nonneg (u : SvcUser) (now now2 : Nat)
    (spinId prize ptype spinId2 prize2 : String) (pval : Int) :
    0 ≤ (saveSpinUpdate u now spinId prize ptype pval).attempts_left ∧
    0 ≤ (saveSpinSimpleUpdate u now2 spinId2 prize2).attempts_left :=
  ⟨le_max_left _ _, le_max_left _ _⟩

/-- A concrete configured wheel prize for the routes handler. -/
def rpzP : RPrize := ⟨1, "P", 10, "points", 1⟩

/-- Claim C5, counterexample: with the persistence step failing
(`storeOk = false`) the routes `/api/spin` still answers with a SUCCESS
response carrying the spin id fabricated by `saveSpin`'s catch, and the
user document is left exactly as before (nothing persisted); likewise the
route-level catch turns a Firebase error into a fabricated success
response instead of surfacing an error. -/
theorem store_failure_returns_success :
    routesSpin false 0 (some [rpzP]) userS1 1000 0 "fresh1" "catch1" =
      some (.success "catch1" "P", userS1) ∧
    routesSpinCatch true "fb1" =
      some {success := true, spin_id := "fb1", is_fallback := true} := by
  constructor
  · norm_num [routesSpin, selectPrizeRoutes, selectPrizeLoop, rWeight, rpzP,
      userS1, spinS1, mkSpin, jsOr, startOfDay, dayOf, dayMs]
  · rfl

/-- Claim C5 (amended): when the store fails during the spin transaction
the spin is NOT aborted and no error reaches the caller: `saveSpin`'s
catch swallows the failure and returns a fresh spin id, so for any request
passing the eligibility checks the route answers success over the
unchanged user document; and the route-level catch converts any Firebase
error into a fabricated success response (`is_fallback = true`). -/
theorem store_failure_fallback_success (spinsPerDayCfg : Nat)
    (cfgPrizes : Option (List RPrize)) (u : SvcUser) (now : Nat) (r : Rat)
    (fresh catchId fallbackId : String) (p : RPrize)
    (hdaily : (u.spins.filter (fun s => startOfDay now ≤ s.timestamp)).length <
      jsOr spinsPerDayCfg 3)
    (hatt : 0 < u.attempts_left)
    (hsel : selectPrizeRoutes cfgPrizes r = some p) :
    routesSpin false spinsPerDayCfg cfgPrizes u now r fresh catchId =
      some (.success catchId p.text, u) ∧
    routesSpinCatch true fallbackId =
      some {success := true, spin_id := fallbackId, is_fallback := true} := by
  constructor
  · simp [routesSpin, not_le.mpr hdaily, not_le.mpr hatt, hsel]
  · rfl

/-- Claim C5, witness: the amended theorem applied to the concrete user,
config and failing store. -/
theorem store_failure_fallback_success_witness :
    routesSpin false 0 (some [rpzP]) userS1 1000 0 "f2" "c2" =
      some (.success "c2" "P", userS1) ∧
    routesSpinCatch true "fb2" =
      some {success := true, spin_id := "fb2", is_fallback := true} :=
  store_failure_fallback_success 0 (some [rpzP]) userS1 1000 0 "f2" "c2" "fb2"
    rpzP (by decide) (by decide)
    (by norm_num [selectPrizeRoutes, selectPrizeLoop, rWeight, rpzP])

/-! ## Cooldown: server.js enforces it, routes.js has it disabled -/

/-- Concrete spin record of the server.js flavour, taken at time 0. -/
def srvSpin0 : SpinRecord := ⟨"sp0", 0, 1, "points", 10, false⟩

/-- A server.js user who has just spun at time 0. -/
def srvU1 : ServerUser :=
  { spins := [srvSpin0], totalSpins := 1, totalPrizes := 0,
    lastSpin := some 0, invitedUsers := [], referrals := 0,
    referrer_processed := false, referrer_id := none }

/-- Concrete limits: 3 spins per day, one-hour cooldown. -/
def lim1 : BotLimits := ⟨3, 3600⟩

/-- A spin attempt one second after `srvU1`'s last spin. -/
def att1 : Attempt := ⟨1000, 0, "n1", none⟩

/-- Claim C2, counterexample: the routes.js `/api/spin` has its cooldown
block commented out, so one second after the last spin (cooldown 3600 s
still running) the request SUCCEEDS and appends a record — the resulting
spin timestamps 0 and 1000 ms are far less than `cooldownSeconds` apart,
refuting both the rejection and the spacing consequence of the claim. -/
theorem routes_spin_ignores_cooldown :
    userS1.last_spin = some 0 ∧
    (1000 : Nat) < 0 + 3600 * 1000 ∧
    (routesSpin true 3 (some [rpzP]) userS1 1000 0 "n2" "c2").map
        (fun x => (x.1, x.2.spins.map (fun s => s.timestamp))) =
      some (.success "n2" "P", [0, 1000]) := by
    refine ⟨rfl, by decide, ?_⟩
    norm_num [routesSpin, selectPrizeRoutes, selectPrizeLoop, rWeight, rpzP,
      userS1, spinS1, mkSpin, jsOr, startOfDay, dayOf, dayMs, saveSpinUpdate]

/-- Claim C2 (amended): the server.js spin path enforces the cooldown —
with the daily limit passing, a request inside the (effective) cooldown
window is rejected with `CoolingDown` carrying the ceiling of the
remaining seconds and no state change, and any successful server.js spin
is at least the effective cooldown after `lastSpin`; the routes.js spin
path performs NO cooldown check: its outcome is the same whatever
`last_spin` holds. -/
theorem cooldown_server_enforced_routes_disabled (limits : BotLimits)
    (prizes : List Prize) (userId : String) (u : ServerUser)
    (refUser : Option ServerUser) (a : Attempt) (last : Nat)
    (hlast : u.lastSpin = some last) :
    (spinsToday u.spins a.now < effSpinsPerDay limits →
      a.now < last + effCooldownSeconds limits * 1000 →
      serverSpin limits prizes userId u refUser a =
        (.cooldown ((last + effCooldownSeconds limits * 1000 - a.now + 999) / 1000),
         u, refUser)) ∧
    (∀ record u2 r2,
      serverSpin limits prizes userId u refUser a = (.ok record, u2, r2) →
      last + effCooldownSeconds limits * 1000 ≤ record.date) ∧
    (∀ (storeOk : Bool) (spd : Nat) (cfgPrizes : Option (List RPrize))
        (su : SvcUser) (now : Nat) (r : Rat) (fresh catchId : String)
        (o : Option Nat),
      (routesSpin storeOk spd cfgPrizes su now r fresh catchId).map Prod.fst =
        (routesSpin storeOk spd cfgPrizes {su with last_spin := o}
          now r fresh catchId).map Prod.fst) := by
  refine ⟨?_, ?_, ?_⟩
  · intro hdaily hcool
    simp [serverSpin, not_le.mpr hdaily, hlast, hcool]
  · intro record u2 r2 h
    by_cases hdaily : effSpinsPerDay limits ≤ spinsToday u.spins a.now
    · simp [serverSpin, hdaily] at h
    · by_cases hcool : a.now < last + effCooldownSeconds limits * 1000
      · simp [serverSpin, hdaily, hlast, hcool] at h
      · cases hps : prizeStep prizes a.draw with
        | noPrizes => simp [serverSpin, hdaily, hlast, hcool, hps] at h
        | selected sel =>
          have hrec : record.date = a.now := by
            simp [serverSpin, hdaily, hlast, hcool, hps, Prod.ext_iff] at h
            obtain ⟨h1, -⟩ := h
            rw [← h1]
          rw [hrec]
          exact le_of_not_lt hcool
  · intro storeOk spd cfgPrizes su now r fresh catchId o
    by_cases h1 : jsOr spd 3 ≤
        (su.spins.filter (fun s => startOfDay now ≤ s.timestamp)).length
    · simp [routesSpin, h1]
    · by_cases h2 : su.attempts_left ≤ 0
      · simp [routesSpin, h1, h2]
      · cases hsel : selectPrizeRoutes cfgPrizes r with
        | none => simp [routesSpin, h1, h2, hsel]
        | some p => cases storeOk <;> simp [routesSpin, h1, h2, hsel]

/-- Claim C2, witness: the amended theorem on the concrete user `srvU1`
one second into a one-hour cooldown (server.js rejects), and the routes
clause on the concrete user with `last_spin` erased. -/
theorem cooldown_server_enforced_routes_disabled_witness :
    serverSpin lim1 [przA] "u" srvU1 none att1 =
      (.cooldown ((0 + effCooldownSeconds lim1 * 1000 - 1000 + 999) / 1000),
       srvU1, none) ∧
    (routesSpin true 3 (some [rpzP]) userS1 1000 0 "n2" "c2").map Prod.fst =
      (routesSpin true 3 (some [rpzP]) {userS1 with last_spin := none}
        1000 0 "n2" "c2").map Prod.fst :=
  ⟨(cooldown_server_enforced_routes_disabled lim1 [przA] "u" srvU1 none att1 0
      rfl).1 (by decide) (by decide),
   (cooldown_server_enforced_routes_disabled lim1 [przA] "u" srvU1 none att1 0
      rfl).2.2 true 3 (some [rpzP]) userS1 1000 0 "n2" "c2" none⟩

/-! ## Referral attribution -/

/-- A referrer document with no invited users yet. -/
def srvRef : ServerUser :=
  { spins := [], totalSpins := 0, totalPrizes := 0, lastSpin := none,
    invitedUsers := [], referrals := 0, referrer_processed := false,
    referrer_id := none }

/-- Claim C8: the referral path of the server.js spin handler is
idempotent — under the `referrer_processed` guard, running it twice for
the same `(referrerId, referredUserId)` pair is a no-op the second time,
the referrer's `referrals` ends incremented exactly once over its initial
value, and `invitedUsers` contains the referred user exactly once. -/
theorem referral_attribution_idempotent (uid rid : String) (u rd : ServerUser)
    (hne : rid ≠ uid) (hproc : u.referrer_processed = false)
    (hnew : uid ∉ rd.invitedUsers) :
    processReferrer uid rid
        (processReferrer uid rid u (some rd)).1
        (processReferrer uid rid u (some rd)).2 =
      processReferrer uid rid u (some rd) ∧
    (processReferrer uid rid u (some rd)).2 =
      some {rd with invitedUsers := rd.invitedUsers ++ [uid],
                    referrals := rd.referrals + 1} ∧
    (rd.invitedUsers ++ [uid]).count uid = 1 := by
  have h1 : processReferrer uid rid u (some rd) =
      ({u with referrer_processed := true, referrer_id := some rid},
       some {rd with invitedUsers := rd.invitedUsers ++ [uid],
                     referrals := rd.referrals + 1}) := by
    simp [processReferrer, hne, hproc, arrayUnion, hnew]
  refine ⟨?_, ?_, ?_⟩
  · rw [h1]
    simp [processReferrer, hne]
  · rw [h1]
  · rw [List.count_append]
    rw [List.count_eq_zero.mpr hnew]
    simp

/-- Claim C8, witness: the idempotency theorem on a concrete fresh user
and referrer. -/
theorem referral_attribution_idempotent_witness :
    processReferrer "u1" "r1"
        (processReferrer "u1" "r1" srvU1 (some srvRef)).1
        (processReferrer "u1" "r1" srvU1 (some srvRef)).2 =
      processReferrer "u1" "r1" srvU1 (some srvRef) ∧
    (processReferrer "u1" "r1" srvU1 (some srvRef)).2 =
      some {srvRef with invitedUsers := srvRef.invitedUsers ++ ["u1"],
                        referrals := srvRef.referrals + 1} ∧
    (srvRef.invitedUsers ++ ["u1"]).count "u1" = 1 :=
  referral_attribution_idempotent "u1" "r1" srvU1 srvRef (by decide) rfl
    (by decide)

/-! ## The totalSpins invariant -/

/-- The referrer block never touches the referred user's spins, spin
counter or prize counter. -/
theorem processReferrer_preserves (uid rid : String) (u : ServerUser)
    (refUser : Option ServerUser) :
    (processReferrer uid rid u refUser).1.spins = u.spins ∧
    (processReferrer uid rid u refUser).1.totalSpins = u.totalSpins := by
  cases refUser with
  | none => simp [processReferrer]
  | some rd =>
    by_cases h : rid = uid
    · simp [processReferrer, h]
    · by_cases hp : u.referrer_processed <;> simp [processReferrer, h, hp]

/-- Every firebaseService.js user operation preserves
`total_spins = spins.length`. -/
theorem applyOp_spinsInv (u : SvcUser) (op : UserOp) (hu : spinsInv u) :
    spinsInv (applyOp u op) := by
  cases op with
  | save now spinId prize ptype pval =>
    simpa [applyOp, saveSpinUpdate, spinsInv] using hu
  | simpleSave now spinId prize =>
    simpa [applyOp, saveSpinSimpleUpdate, spinsInv] using hu
  | lead spinId ld =>
    simpa [applyOp, updateSpinLead, spinsInv] using hu
  | fallback spinId t =>
    simpa [applyOp, updateSpinFallback, spinsInv] using hu

/-- A successful server.js spin with a fresh spin id appends exactly one
record while incrementing `totalSpins` by one; every rejection leaves
both sides alone. -/
theorem serverSpin_totalSpins (limits : BotLimits) (prizes : List Prize)
    (userId : String) (u : ServerUser) (refUser : Option ServerUser)
    (a : Attempt) (hfresh : ∀ s ∈ u.spins, s.spin_id ≠ a.newId)
    (hu : u.totalSpins = u.spins.length) :
    (serverSpin limits prizes userId u refUser a).2.1.totalSpins =
      (serverSpin limits prizes userId u refUser a).2.1.spins.length := by
  by_cases hdaily : effSpinsPerDay limits ≤ spinsToday u.spins a.now
  · simpa [serverSpin, hdaily] using hu
  · cases hcd : u.lastSpin with
    | some last =>
      by_cases hcool : a.now < last + effCooldownSeconds limits * 1000
      · simpa [serverSpin, hdaily, hcd, hcool] using hu
      · have hur := processReferrer_preserves userId (a.refId.getD "") u refUser
        cases hps : prizeStep prizes a.draw with
        | noPrizes =>
          cases hri : a.refId with
          | none => simpa [serverSpin, hdaily, hcd, hcool, hps, hri] using hu
          | some rid =>
            have hpr := processReferrer_preserves userId rid u refUser
            simp [serverSpin, hdaily, hcd, hcool, hps, hri, hpr.1, hpr.2, hu]
        | selected sel =>
          cases hri : a.refId with
          | none =>
            have hmem : (⟨a.newId, a.now, sel.pid, sel.ptype, sel.value, false⟩ : SpinRecord) ∉
                u.spins := by
              intro hmem
              exact hfresh _ hmem rfl
            by_cases hty : sel.ptype ≠ "none" <;>
              simp [serverSpin, hdaily, hcd, hcool, hps, hri, arrayUnion,
                hmem, hu, hty]
          | some rid =>
            have hpr := processReferrer_preserves userId rid u refUser
            have hmem : (⟨a.newId, a.now, sel.pid, sel.ptype, sel.value, false⟩ : SpinRecord) ∉
                u.spins := by
              intro hm
              exact hfresh _ hm rfl
            by_cases hty : sel.ptype ≠ "none" <;>
              simp [serverSpin, hdaily, hcd, hcool, hps, hri, arrayUnion,
                hmem, hpr.1, hpr.2, hu, hty]
    | none =>
      have hur := processReferrer_preserves userId (a.refId.getD "") u refUser
      cases hps : prizeStep prizes a.draw with
      | noPrizes =>
        cases hri : a.refId with
        | none => simpa [serverSpin, hdaily, hcd, hps, hri] using hu
        | some rid =>
          have hpr := processReferrer_preserves userId rid u refUser
          simp [serverSpin, hdaily, hcd, hps, hri, hpr.1, hpr.2, hu]
      | selected sel =>
        cases hri : a.refId with
        | none =>
          have hmem : (⟨a.newId, a.now, sel.pid, sel.ptype, sel.value, false⟩ : SpinRecord) ∉
              u.spins := by
            intro hmem
            exact hfresh _ hmem rfl
          by_cases hty : sel.ptype ≠ "none" <;>
            simp [serverSpin, hdaily, hcd, hps, hri, arrayUnion, hmem, hu, hty]
        | some rid =>
          have hpr := processReferrer_preserves userId rid u refUser
          have hmem : (⟨a.newId, a.now, sel.pid, sel.ptype, sel.value, false⟩ : SpinRecord) ∉
              u.spins := by
            intro hm
            exact hfresh _ hm rfl
          by_cases hty : sel.ptype ≠ "none" <;>
            simp [serverSpin, hdaily, hcd, hps, hri, arrayUnion, hmem,
              hpr.1, hpr.2, hu, hty]

/-- Claim C9: every user operation preserves the invariant
`totalSpins = len(spins)` — any sequence of firebaseService.js operations
(saveSpin, saveSpinSimple, lead submit, lead fallback) keeps
`total_spins` equal to the length of `spins`, and the server.js spin
handler (with a fresh spin id) does too: a successful spin appends
exactly one record and increments the counter by exactly one, while
rejections touch neither. -/
theorem totalSpins_eq_length_preserved (ops : List UserOp) (u : SvcUser)
    (hu : spinsInv u) (limits : BotLimits) (prizes : List Prize)
    (userId : String) (su : ServerUser) (refUser : Option ServerUser)
    (a : Attempt) (hfresh : ∀ s ∈ su.spins, s.spin_id ≠ a.newId)
    (hsu : su.totalSpins = su.spins.length) :
    spinsInv (ops.foldl applyOp u) ∧
    (serverSpin limits prizes userId su refUser a).2.1.totalSpins =
      (serverSpin limits prizes userId su refUser a).2.1.spins.length := by
  constructor
  · induction ops generalizing u with
    | nil => exact hu
    | cons op rest ih =>
      exact ih (applyOp u op) (applyOp_spinsInv u op hu)
  · exact serverSpin_totalSpins limits prizes userId su refUser a hfresh hsu

/-- Claim C9, witness: the preserved invariant on a concrete operation
sequence (a saved spin followed by a lead submission) and on a concrete
server.js spin. -/
theorem totalSpins_eq_length_preserved_witness :
    spinsInv ([UserOp.save 1000 "w1" "P" "points" 10,
               UserOp.lead "w1" ldX].foldl applyOp userS1) ∧
    (serverSpin lim1 [przA] "u" srvU1 none att1).2.1.totalSpins =
      (serverSpin lim1 [przA] "u" srvU1 none att1).2.1.spins.length :=
  totalSpins_eq_length_preserved
    [UserOp.save 1000 "w1" "P" "points" 10, UserOp.lead "w1" ldX]
    userS1 rfl lim1 [przA] "u" srvU1 none att1 (by decide) rfl

/-! ## The daily limit -/

/-- Today's spin count is the day count at today's day number. -/
theorem spinsToday_eq_dayCount (spins : List SpinRecord) (now : Nat) :
    spinsToday spins now = dayCount spins (dayOf now) := rfl

/-- Day counts add over list append. -/
theorem dayCount_append (l1 l2 : List SpinRecord) (d : Nat) :
    dayCount (l1 ++ l2) d = dayCount l1 d + dayCount l2 d := by
  simp [dayCount, List.filter_append]

/-- Bounding the day count across an `arrayUnion`: an already-present
record changes nothing; a new record on day `d` needs strict headroom. -/
theorem dayCount_arrayUnion_le (l : List SpinRecord) (x : SpinRecord)
    (d M : Nat) (hl : dayCount l d ≤ M)
    (htoday : dayOf x.date = d → dayCount l d < M) :
    dayCount (arrayUnion l x) d ≤ M := by
  unfold arrayUnion
  split
  · exact hl
  · rw [dayCount_append]
    by_cases hd : dayOf x.date = d
    · have h1 : dayCount [x] d = 1 := by simp [dayCount, hd]
      have h2 := htoday hd
      omega
    · have h0 : dayCount [x] d = 0 := by simp [dayCount, hd]
      omega

/-- One server.js spin request keeps every calendar day's spin count at or
below the effective daily limit. -/
theorem serverSpin_dayCount_le (limits : BotLimits) (prizes : List Prize)
    (userId : String) (u : ServerUser) (refUser : Option ServerUser)
    (a : Attempt) (d : Nat)
    (h : dayCount u.spins d ≤ effSpinsPerDay limits) :
    dayCount (serverSpin limits prizes userId u refUser a).2.1.spins d ≤
      effSpinsPerDay limits := by
  by_cases hdaily : effSpinsPerDay limits ≤ spinsToday u.spins a.now
  · simpa [serverSpin, hdaily] using h
  · have hroom : dayOf a.now = d → dayCount u.spins d < effSpinsPerDay limits := by
      intro hd
      rw [← hd]
      rw [← spinsToday_eq_dayCount]
      exact lt_of_not_le hdaily
    have hok : ∀ (u1 : ServerUser) (sel : Prize), u1.spins = u.spins →
        dayCount (arrayUnion u1.spins
          (⟨a.newId, a.now, sel.pid, sel.ptype, sel.value, false⟩ : SpinRecord)) d ≤
          effSpinsPerDay limits := by
      intro u1 sel hequ
      rw [hequ]
      exact dayCount_arrayUnion_le u.spins _ d _ h hroom
    cases hcd : u.lastSpin with
    | some last =>
      by_cases hcool : a.now < last + effCooldownSeconds limits * 1000
      · simpa [serverSpin, hdaily, hcd, hcool] using h
      · cases hps : prizeStep prizes a.draw with
        | noPrizes =>
          cases hri : a.refId with
          | none => simpa [serverSpin, hdaily, hcd, hcool, hps, hri] using h
          | some rid =>
            have hpr := processReferrer_preserves userId rid u refUser
            simpa [serverSpin, hdaily, hcd, hcool, hps, hri, hpr.1] using h
        | selected sel =>
          cases hri : a.refId with
          | none =>
            have := hok u sel rfl
            by_cases hty : sel.ptype ≠ "none" <;>
              simpa [serverSpin, hdaily, hcd, hcool, hps, hri, hty] using this
          | some rid =>
            have hpr := processReferrer_preserves userId rid u refUser
            have := hok (processReferrer userId rid u refUser).1 sel hpr.1
            rw [hpr.1] at this
            by_cases hty : sel.ptype ≠ "none" <;>
              simpa [serverSpin, hdaily, hcd, hcool, hps, hri, hty, hpr.1]
                using this
    | none =>
      cases hps : prizeStep prizes a.draw with
      | noPrizes =>
        cases hri : a.refId with
        | none => simpa [serverSpin, hdaily, hcd, hps, hri] using h
        | some rid =>
          have hpr := processReferrer_preserves userId rid u refUser
          simpa [serverSpin, hdaily, hcd, hps, hri, hpr.1] using h
      | selected sel =>
        cases hri : a.refId with
        | none =>
          have := hok u sel rfl
          by_cases hty : sel.ptype ≠ "none" <;>
            simpa [serverSpin, hdaily, hcd, hps, hri, hty] using this
        | some rid =>
          have hpr := processReferrer_preserves userId rid u refUser
          have := hok (processReferrer userId rid u refUser).1 sel hpr.1
          rw [hpr.1] at this
          by_cases hty : sel.ptype ≠ "none" <;>
            simpa [serverSpin, hdaily, hcd, hps, hri, hty, hpr.1] using this

/-- Limits with a configured `spinsPerDay` of 0 (falsy in JS). -/
def lim0 : BotLimits := ⟨0, 3600⟩

/-- A brand-new user document with no spins. -/
def freshU : ServerUser :=
  { spins := [], totalSpins := 0, totalPrizes := 0, lastSpin := none,
    invitedUsers := [], referrals := 0, referrer_processed := false,
    referrer_id := none }

/-- A spin attempt at time 500 ms with draw 0 and no referrer. -/
def att0 : Attempt := ⟨500, 0, "cx1", none⟩

/-- Claim C1, counterexample: with a configured `maxSpinsPerDay = 0`
(falsy, so server.js substitutes the default 3) an attempt made when the
day's recorded count (0) is at least `maxSpinsPerDay` (0) is NOT rejected:
the spin succeeds, appends a record, and the day's count (1) exceeds the
configured `maxSpinsPerDay`. -/
theorem dailyLimit_zero_config_not_enforced :
    lim0.spinsPerDay ≤ spinsToday freshU.spins att0.now ∧
    (serverSpin lim0 [przA] "u" freshU none att0).1 ≠
      SpinOutcome.dailyLimit (spinsToday freshU.spins att0.now) ∧
    lim0.spinsPerDay <
      dayCount (serverSpin lim0 [przA] "u" freshU none att0).2.1.spins
        (dayOf att0.now) := by
  decide

/-- Claim C1 (amended): with the EFFECTIVE daily limit
`spinsPerDay || 3` — equal to the configured `maxSpinsPerDay` whenever
that is non-zero — a spin attempt made when the number of spins recorded
in the current calendar day is at least the effective limit is rejected
with the daily-limit error and appends no spin record; consequently, over
any sequence of sequential spin attempts, the number of spins recorded in
any one calendar day never exceeds the effective limit. -/
theorem dailyLimit_effective_bound (limits : BotLimits) (prizes : List Prize)
    (userId : String) (u : ServerUser) (refUser : Option ServerUser)
    (a : Attempt) :
    (effSpinsPerDay limits ≤ spinsToday u.spins a.now →
      serverSpin limits prizes userId u refUser a =
        (.dailyLimit (spinsToday u.spins a.now), u, refUser)) ∧
    (∀ (st : ServerState) (attempts : List Attempt),
      (∀ d, dayCount st.user.spins d ≤ effSpinsPerDay limits) →
      ∀ d, dayCount (runSpins limits prizes userId st attempts).user.spins d ≤
        effSpinsPerDay limits) := by
  constructor
  · intro h
    simp [serverSpin, h]
  · intro st attempts
    induction attempts generalizing st with
    | nil => intro h d; exact h d
    | cons a2 rest ih =>
      intro h d
      simp only [runSpins, List.foldl_cons]
      have hstep : ∀ d2,
          dayCount (spinStep limits prizes userId st a2).user.spins d2 ≤
            effSpinsPerDay limits :=
        fun d2 =>
          serverSpin_dayCount_le limits prizes userId st.user st.referrer a2
            d2 (h d2)
      exact ih (spinStep limits prizes userId st a2) hstep d

/-- A user who already holds three spins recorded today (times 0, 1, 2). -/
def srvU3 : ServerUser :=
  { spins := [⟨"a1", 0, 1, "points", 10, false⟩,
              ⟨"a2", 1, 1, "points", 10, false⟩,
              ⟨"a3", 2, 1, "points", 10, false⟩],
    totalSpins := 3, totalPrizes := 0, lastSpin := some 2,
    invitedUsers := [], referrals := 0, referrer_processed := false,
    referrer_id := none }

/-- A fourth same-day spin attempt at time 10 ms. -/
def att2 : Attempt := ⟨10, 0, "n3", none⟩

/-- Claim C1, witness: the amended theorem on the concrete user with three
spins today and the limit 3 — the fourth attempt is rejected unchanged,
and replaying two more attempts never pushes any day count above the
effective limit. -/
theorem dailyLimit_effective_bound_witness :
    serverSpin lim1 [przA] "u" srvU3 none att2 =
      (.dailyLimit (spinsToday srvU3.spins att2.now), srvU3, none) ∧
    dayCount (runSpins lim1 [przA] "u" ⟨srvU3, none⟩ [att2, att2]).user.spins
        0 ≤ effSpinsPerDay lim1 :=
  ⟨(dailyLimit_effective_bound lim1 [przA] "u" srvU3 none att2).1 (by decide),
   (dailyLimit_effective_bound lim1 [przA] "u" srvU3 none att2).2 ⟨srvU3, none⟩
     [att2, att2]
     (fun d => le_trans (List.length_filter_le _ _) (by decide)) 0⟩

end Restbek
